import Mathlib

/-!
Shallow embedding of `src/telecom_churn_analyzer.py` (class `TelecomChurnAnalyzer`).

The program is a linear pandas pipeline: load → clean → derive → analyze → render.
We model a DataFrame as a `Table`: a list of column names plus row-major cells.
Cell values are the JSON-derived value kinds the program manipulates: strings,
numbers (modelled as ℚ; pandas floats), missing values (None/NaN, one `null`
constructor), and nested dict values (carried as their Python string form,
which is all `astype(str)` ever observes of them).

Modelling decisions, each tied to a concrete pandas behaviour of the source:
* a column is numeric dtype iff all its cells are numbers or nulls and at
  least one is a number; every other column (any string/nested cell, or all
  nulls) is object dtype — `select_dtypes(include="object")` versus
  `select_dtypes(include=["float","int"])` in `clean_data`;
* `drop_duplicates` keeps the first occurrence and preserves order (`dedupFirst`);
* `value_counts(normalize=True)` drops nulls and normalizes by the non-null
  count; `groupby("Churn")` drops null group keys;
* `astype(str)` turns a null into the string "nan" and is applied to a whole
  column as soon as one cell of it is a dict;
* dividing a column that holds a string/nested cell by a scalar raises a
  TypeError; dividing a null gives a null.
-/

instance {ε α : Type} [DecidableEq ε] [DecidableEq α] : DecidableEq (Except ε α) := fun a b =>
  match a, b with
  | .ok x, .ok y =>
      if h : x = y then .isTrue (by rw [h]) else .isFalse (by simp [h])
  | .error x, .error y =>
      if h : x = y then .isTrue (by rw [h]) else .isFalse (by simp [h])
  | .ok _, .error _ => .isFalse (by simp)
  | .error _, .ok _ => .isFalse (by simp)

inductive Cell where
  | str (s : String)
  | num (q : ℚ)
  | nested (rep : String)
  | null
deriving DecidableEq, Repr

structure Table where
  cols : List String
  rows : List (List Cell)
deriving DecidableEq, Repr

/-- Well-formed table: every row has one cell per column (always true of a
pandas DataFrame). -/
def Table.WF (t : Table) : Prop := ∀ r ∈ t.rows, r.length = t.cols.length

instance (t : Table) : Decidable t.WF := List.decidableBAll _ _

def Cell.isNum : Cell → Bool
  | .num _ => true
  | _ => false

def Cell.isNull : Cell → Bool
  | .null => true
  | _ => false

def Cell.isNested : Cell → Bool
  | .nested _ => true
  | _ => false

/-- The cell at row `j`, column index `i` (missing positions read as null,
mirroring "missing keys are null for that column"). -/
def getCellD (t : Table) (i j : Nat) : Cell := (t.rows.getD j []).getD i Cell.null

/-- Column `i` as the list of its cells, one per row. -/
def colAt (t : Table) (i : Nat) : List Cell := t.rows.map (fun r => r.getD i Cell.null)

/-- Column selected by name, `df[name]`. -/
def colNamed (t : Table) (c : String) : List Cell := colAt t (t.cols.indexOf c)

/-- pandas numeric dtype (int64/float64) for a JSON-derived column: every cell
a number or null, and at least one number. All other columns are object dtype. -/
def isNumericCol (cells : List Cell) : Bool :=
  cells.any Cell.isNum && cells.all (fun c => Cell.isNum c || Cell.isNull c)

/-- `astype(str)` on one cell: `str(value)`. A NaN cell becomes the string
"nan"; a number or nested value becomes its textual form. -/
def cellStr : Cell → Cell
  | .str s => .str s
  | .num q => .str (toString q)
  | .nested s => .str s
  | .null => .str "nan"

/-- `clean_data` step 1: for every column with at least one dict cell, stringify
the whole column (`df[col].astype(str)`); other columns pass through. Rows are
rebuilt to one cell per column. -/
def stringifyRows (t : Table) : List (List Cell) :=
  t.rows.map (fun r =>
    (List.range t.cols.length).map (fun i =>
      if (colAt t i).any Cell.isNested then cellStr (r.getD i Cell.null)
      else r.getD i Cell.null))

/-- `drop_duplicates` scan: walk the list keeping each row not seen before. -/
def dedupAux {α : Type} [DecidableEq α] (seen : List α) : List α → List α
  | [] => []
  | x :: xs => if x ∈ seen then dedupAux seen xs else x :: dedupAux (x :: seen) xs

/-- `drop_duplicates` with default `keep="first"`: first occurrence survives,
relative order preserved. -/
def dedupFirst {α : Type} [DecidableEq α] (l : List α) : List α := dedupAux [] l

/-- The table after `clean_data`'s stringify and drop-duplicates steps, just
before null filling. -/
def midTable (t : Table) : Table := ⟨t.cols, dedupFirst (stringifyRows t)⟩

/-- `clean_data` step 3: `df[col].fillna("Desconocido")` on every
`select_dtypes(include="object")` column. -/
def fillText (t : Table) : Table :=
  ⟨t.cols, t.rows.map (fun r =>
    (List.range t.cols.length).map (fun i =>
      let c := r.getD i Cell.null
      if ¬ isNumericCol (colAt t i) ∧ c = Cell.null then Cell.str "Desconocido" else c))⟩

/-- `clean_data` step 4: `df[col].fillna(0)` on every
`select_dtypes(include=["float","int"])` column. -/
def fillNum (t : Table) : Table :=
  ⟨t.cols, t.rows.map (fun r =>
    (List.range t.cols.length).map (fun i =>
      let c := r.getD i Cell.null
      if isNumericCol (colAt t i) ∧ c = Cell.null then Cell.num 0 else c))⟩

/-- `clean_data`: stringify nested columns, drop duplicate rows, fill text
nulls, fill numeric nulls — in that order. -/
def cleanData (t : Table) : Table := fillNum (fillText (midTable t))

-- Quick sanity examples (concrete evaluation of the embedding).
example :
    cleanData ⟨["Name"], [[Cell.str "a"], [Cell.null]]⟩ =
      ⟨["Name"], [[Cell.str "a"], [Cell.str "Desconocido"]]⟩ := by decide

example :
    cleanData ⟨["n"], [[Cell.num 1], [Cell.null], [Cell.num 1]]⟩ =
      ⟨["n"], [[Cell.num 1], [Cell.num 0]]⟩ := by decide

/-! ### Feature Deriver: `create_daily_column` -/

inductive DeriveError where
  | typeError
deriving DecidableEq, Repr

/-- Elementwise `series / days` on one cell: numbers divide, nulls stay NaN.
(Only applied when the column holds no string/nested cell.) -/
def cellDiv (c : Cell) (d : ℚ) : Cell :=
  match c with
  | .num q => .num (q / d)
  | c => c

/-- `df[name] = vals`: overwrite the column in place if the name exists,
otherwise append it as a new last column. -/
def setCol (t : Table) (name : String) (vals : List Cell) : Table :=
  if name ∈ t.cols then
    ⟨t.cols, (t.rows.zip vals).map (fun p => p.1.set (t.cols.indexOf name) p.2)⟩
  else
    ⟨t.cols ++ [name], (t.rows.zip vals).map (fun p => p.1 ++ [p.2])⟩

/-- `create_daily_column`: only acts when a column literally named
"MonthlyCharges" exists; dividing a column holding a string/nested cell by a
scalar raises a TypeError. -/
def createDaily (t : Table) (d : ℚ) : Except DeriveError Table :=
  if "MonthlyCharges" ∈ t.cols then
    let mc := colNamed t "MonthlyCharges"
    if mc.all (fun c => Cell.isNum c || Cell.isNull c) then
      .ok (setCol t "DailyCharges" (mc.map (fun c => cellDiv c d)))
    else .error .typeError
  else .ok t

/-! ### Aggregator: `analyze_data` -/

/-- Character-list prefix test (helper for Python's `in` substring test). -/
def leadEq : List Char → List Char → Bool
  | [], _ => true
  | _ :: _, [] => false
  | a :: as, b :: bs => a == b && leadEq as bs

/-- `pat`-occurs-inside test on character lists. -/
def subIn (pat : List Char) : List Char → Bool
  | [] => pat.isEmpty
  | s@(_ :: rest) => leadEq pat s || subIn pat rest

/-- Python `pat in s`: substring containment. -/
def strHasSub (s pat : String) : Bool := subIn pat.data s.data

/-- Python `col.lower()` (ASCII case folding, the case that arises for column
names). -/
def lowerChars (s : String) : List Char := s.data.map Char.toLower

/-- `"charge" in col.lower() or "cargos" in col.lower()`. -/
def chargeMatch (c : String) : Bool :=
  subIn "charge".data (lowerChars c) || subIn "cargos".data (lowerChars c)

/-- The heuristic charge-column detection loop: first matching column name in
declaration order, if any. -/
def findCharge (t : Table) : Option String := t.cols.find? chargeMatch

/-- Occurrence count of a value in a list. -/
def cnt {α : Type} [DecidableEq α] (v : α) : List α → Nat
  | [] => 0
  | x :: xs => (if x = v then 1 else 0) + cnt v xs

/-- `value_counts(normalize=True).to_dict()`: drop nulls, then map each distinct
value (first-occurrence order) to its count over the non-null count. -/
def vcNorm (cells : List Cell) : List (Cell × ℚ) :=
  let nn := cells.filter (fun c => ¬ Cell.isNull c)
  (dedupFirst nn).map (fun v => (v, (cnt v nn : ℚ) / (nn.length : ℚ)))

/-- `value_counts().to_dict()` raw counts, used by the bar chart. -/
def vcCounts (cells : List Cell) : List (Cell × Nat) :=
  let nn := cells.filter (fun c => ¬ Cell.isNull c)
  (dedupFirst nn).map (fun v => (v, cnt v nn))

/-- `df.groupby(keys)[vals].mean().to_dict()`: null group keys dropped; within a
group the mean skips null cells (an all-null group stands for NaN, read 0 here —
no claim touches that value). -/
def groupMean (keys vals : List Cell) : List (Cell × ℚ) :=
  let pairs := keys.zip vals
  (dedupFirst (keys.filter (fun c => ¬ Cell.isNull c))).map (fun k =>
    let nums := (pairs.filter (fun p => p.1 = k)).filterMap
      (fun p => match p.2 with | .num q => some q | _ => none)
    (k, nums.sum / (nums.length : ℚ)))

structure Results where
  churn_rate : List (Cell × ℚ)
  avg_charges : List (Cell × ℚ)
  total_customers : Nat
deriving DecidableEq, Repr

inductive AnalyzeError where
  | schemaError
  | typeError
deriving DecidableEq, Repr

/-- `analyze_data`. Raises KeyError (the spec's SchemaError) when no "Churn"
column exists. The Bool records whether the no-charge-column warning was
printed. Taking the mean of an object-dtype charge column raises a TypeError. -/
def analyzeData (t : Table) : Except AnalyzeError (Results × Bool) :=
  if "Churn" ∈ t.cols then
    let churn := colNamed t "Churn"
    match findCharge t with
    | some c =>
        if isNumericCol (colNamed t c) then
          .ok ({ churn_rate := vcNorm churn,
                 avg_charges := groupMean churn (colNamed t c),
                 total_customers := t.rows.length }, false)
        else .error .typeError
    | none =>
        .ok ({ churn_rate := vcNorm churn,
               avg_charges := [],
               total_customers := t.rows.length }, true)
  else .error .schemaError

/-! ### Loader and pipeline: `load_data`, `generate_report`, `run_and_report` -/

inductive LoadErr where
  | httpErr
  | parseErr
deriving DecidableEq, Repr

/-- Outcome of the external fetch+parse for one input selector. -/
inductive Fetched where
  | good (t : Table)
  | bad (e : LoadErr)
deriving DecidableEq, Repr

/-- `load_data(url, file_path)`. The whole body sits in a try/except that
prints the error and leaves `raw_data` as None: the method itself never
propagates an exception. The URL branch wins when both selectors are given. -/
def loadData : Option Fetched → Option Fetched → Option Table × List String
  | some (.good t), _ =>
      (some t, ["[OK] Datos cargados desde URL (" ++ toString t.rows.length ++ " registros)"])
  | some (.bad _), _ => (none, ["[ERROR] cargando datos"])
  | none, some (.good t) =>
      (some t, ["[OK] Datos cargados desde archivo (" ++ toString t.rows.length ++ " registros)"])
  | none, some (.bad _) => (none, ["[ERROR] cargando datos"])
  | none, none =>
      (none, ["[ERROR] cargando datos: Debes proporcionar una URL o un file_path."])

inductive RunError where
  /-- `self.raw_data.copy()` on None: AttributeError inside `clean_data`. -/
  | attrNone
  | schemaError
  | typeError
deriving DecidableEq, Repr

/-- The rendered document's content: the three Results fields plus the bar
chart's label→count pairs (`generate_report` + `plot_churn`). -/
structure Report where
  total_customers : Nat
  churn_rate : List (Cell × ℚ)
  avg_charges : List (Cell × ℚ)
  chart : List (Cell × Nat)
deriving DecidableEq, Repr

def renderReport (res : Results) (t : Table) : Report :=
  { total_customers := res.total_customers,
    churn_rate := res.churn_rate,
    avg_charges := res.avg_charges,
    chart := vcCounts (colNamed t "Churn") }

/-- The pipeline from a loaded raw table: clean → derive → analyze → report.
Any uncaught exception aborts before the report file is written. -/
def runFromRaw (raw : Table) (d : ℚ) : Except RunError Report :=
  match createDaily (cleanData raw) d with
  | .error .typeError => .error .typeError
  | .ok t2 =>
      match analyzeData t2 with
      | .error .schemaError => .error .schemaError
      | .error .typeError => .error .typeError
      | .ok (res, _) => .ok (renderReport res t2)

/-- `run_and_report`: load, then the rest; when loading left no table the
Cleaner's `self.raw_data.copy()` raises AttributeError. -/
def runAndReport (u p : Option Fetched) (d : ℚ) : Except RunError Report :=
  match (loadData u p).1 with
  | none => .error .attrNone
  | some raw => runFromRaw raw d

-- Sanity: the spec's §8 worked scenario.
example :
    analyzeData (cleanData ⟨["Churn", "MonthlyCharges"],
      [[Cell.str "Yes", Cell.num 70], [Cell.str "No", Cell.num 50],
       [Cell.str "Yes", Cell.num 70]]⟩) =
    .ok ({ churn_rate := [(Cell.str "Yes", 1/2), (Cell.str "No", 1/2)],
           avg_charges := [(Cell.str "Yes", 70), (Cell.str "No", 50)],
           total_customers := 2 }, false) := by
  have hc : cleanData ⟨["Churn", "MonthlyCharges"],
      [[Cell.str "Yes", Cell.num 70], [Cell.str "No", Cell.num 50],
       [Cell.str "Yes", Cell.num 70]]⟩ =
      ⟨["Churn", "MonthlyCharges"],
       [[Cell.str "Yes", Cell.num 70], [Cell.str "No", Cell.num 50]]⟩ := by decide
  rw [hc]
  have hcol : colNamed ⟨["Churn", "MonthlyCharges"],
      [[Cell.str "Yes", Cell.num 70], [Cell.str "No", Cell.num 50]]⟩ "Churn" =
      [Cell.str "Yes", Cell.str "No"] := by decide
  have hmc : colNamed ⟨["Churn", "MonthlyCharges"],
      [[Cell.str "Yes", Cell.num 70], [Cell.str "No", Cell.num 50]]⟩ "MonthlyCharges" =
      [Cell.num 70, Cell.num 50] := by decide
  have hfind : findCharge ⟨["Churn", "MonthlyCharges"],
      [[Cell.str "Yes", Cell.num 70], [Cell.str "No", Cell.num 50]]⟩ =
      some "MonthlyCharges" := by decide
  simp +decide only [analyzeData, hcol, hmc, hfind, vcNorm, groupMean, dedupFirst,
    dedupAux, cnt, Cell.isNull, Cell.isNum, isNumericCol, List.filter, List.filterMap,
    List.map, List.all, List.any, List.length, List.sum_cons, List.sum_nil, List.zip,
    List.zipWith]
  have hb : ("Churn" == "MonthlyCharges") = false := by decide
  norm_num [List.indexOf_cons, List.indexOf_nil, hb, List.getElem?_cons_zero,
    List.getElem?_cons_succ, Option.getD]

/-! ### Lemmas about the duplicate-removal scan -/

section Dedup

variable {α : Type} [DecidableEq α]

theorem dedupAux_sublist (seen : List α) (l : List α) : List.Sublist (dedupAux seen l) l := by
  induction l generalizing seen with
  | nil => simp [dedupAux]
  | cons x xs ih =>
      by_cases hx : x ∈ seen
      · simp only [dedupAux, if_pos hx]
        exact (ih seen).trans (List.sublist_cons_self x xs)
      · simp only [dedupAux, if_neg hx]
        exact (ih (x :: seen)).cons₂ x

theorem mem_dedupAux {x : α} {seen l : List α} :
    x ∈ dedupAux seen l ↔ x ∈ l ∧ x ∉ seen := by
  induction l generalizing seen with
  | nil => simp [dedupAux]
  | cons y ys ih =>
      by_cases hy : y ∈ seen
      · rw [show dedupAux seen (y :: ys) = dedupAux seen ys from by simp [dedupAux, hy]]
        rw [ih]
        constructor
        · rintro ⟨h1, h2⟩
          exact ⟨List.mem_cons_of_mem _ h1, h2⟩
        · rintro ⟨h1, h2⟩
          rcases List.mem_cons.mp h1 with rfl | h1
          · exact absurd hy h2
          · exact ⟨h1, h2⟩
      · rw [show dedupAux seen (y :: ys) = y :: dedupAux (y :: seen) ys from by
          simp [dedupAux, hy]]
        constructor
        · intro h
          rcases List.mem_cons.mp h with rfl | h
          · exact ⟨List.mem_cons_self _ _, hy⟩
          · rcases ih.mp h with ⟨h1, h2⟩
            exact ⟨List.mem_cons_of_mem _ h1, fun hc => h2 (List.mem_cons_of_mem _ hc)⟩
        · rintro ⟨h1, h2⟩
          rcases List.mem_cons.mp h1 with rfl | h1
          · exact List.mem_cons_self _ _
          · by_cases hxy : x = y
            · subst hxy
              exact List.mem_cons_self _ _
            · refine List.mem_cons_of_mem _ (ih.mpr ⟨h1, ?_⟩)
              intro hc
              rcases List.mem_cons.mp hc with h | h
              · exact hxy h
              · exact h2 h

theorem dedupAux_nodup (seen : List α) (l : List α) : (dedupAux seen l).Nodup := by
  induction l generalizing seen with
  | nil => simp [dedupAux]
  | cons x xs ih =>
      by_cases hx : x ∈ seen
      · simpa [dedupAux, if_pos hx] using ih seen
      · simp only [dedupAux, if_neg hx]
        refine List.nodup_cons.mpr ⟨fun hc => ?_, ih (x :: seen)⟩
        exact (mem_dedupAux.mp hc).2 (List.mem_cons_self x seen)

theorem dedupAux_seen_congr {s₁ s₂ : List α} (h : ∀ x, x ∈ s₁ ↔ x ∈ s₂)
    (l : List α) : dedupAux s₁ l = dedupAux s₂ l := by
  induction l generalizing s₁ s₂ with
  | nil => rfl
  | cons x xs ih =>
      by_cases hx : x ∈ s₁
      · simp only [dedupAux, if_pos hx, if_pos ((h x).mp hx)]
        exact ih h
      · simp only [dedupAux, if_neg hx, if_neg (fun hc => hx ((h x).mpr hc))]
        refine congrArg (x :: ·) (ih ?_)
        intro y; simp only [List.mem_cons, h y]

theorem dedupAux_cons_seen (a : α) (seen : List α) (l : List α) :
    dedupAux (a :: seen) l = dedupAux seen (l.filter (fun x => x ≠ a)) := by
  induction l generalizing seen with
  | nil => rfl
  | cons x xs ih =>
      by_cases hxa : x = a
      · subst hxa
        have e1 : dedupAux (x :: seen) (x :: xs) = dedupAux (x :: seen) xs := by
          simp [dedupAux]
        have e2 : (x :: xs).filter (fun y => y ≠ x) = xs.filter (fun y => y ≠ x) := by
          simp [List.filter_cons]
        rw [e1, e2, ih]
      · have e2 : (x :: xs).filter (fun y => y ≠ a) = x :: xs.filter (fun y => y ≠ a) := by
          simp [List.filter_cons, hxa]
        rw [e2]
        by_cases hxs : x ∈ seen
        · have e1 : dedupAux (a :: seen) (x :: xs) = dedupAux (a :: seen) xs := by
            simp [dedupAux, List.mem_cons, hxs]
          have e3 : dedupAux seen (x :: xs.filter (fun y => y ≠ a)) =
              dedupAux seen (xs.filter (fun y => y ≠ a)) := by
            simp [dedupAux, hxs]
          rw [e1, e3, ih]
        · have hx1 : x ∉ a :: seen := by
            intro hc
            rcases List.mem_cons.mp hc with h | h
            · exact hxa h
            · exact hxs h
          have e1 : dedupAux (a :: seen) (x :: xs) = x :: dedupAux (x :: a :: seen) xs := by
            simp [dedupAux, hx1]
          have e3 : dedupAux seen (x :: xs.filter (fun y => y ≠ a)) =
              x :: dedupAux (x :: seen) (xs.filter (fun y => y ≠ a)) := by
            simp [dedupAux, hxs]
          rw [e1, e3]
          refine congrArg (x :: ·) ?_
          have hswap : ∀ y, y ∈ (x :: a :: seen) ↔ y ∈ (a :: x :: seen) := by
            intro y
            simp only [List.mem_cons]
            tauto
          rw [dedupAux_seen_congr hswap xs, ih]

theorem dedupFirst_sublist (l : List α) : List.Sublist (dedupFirst l) l := dedupAux_sublist [] l

theorem dedupFirst_nodup (l : List α) : (dedupFirst l).Nodup := dedupAux_nodup [] l

theorem mem_dedupFirst {x : α} {l : List α} : x ∈ dedupFirst l ↔ x ∈ l := by
  unfold dedupFirst
  rw [mem_dedupAux]
  simp

theorem dedupFirst_cons (a : α) (l : List α) :
    dedupFirst (a :: l) = a :: dedupFirst (l.filter (fun x => x ≠ a)) := by
  unfold dedupFirst
  have e1 : dedupAux ([] : List α) (a :: l) = a :: dedupAux [a] l := by
    simp [dedupAux]
  rw [e1]
  exact congrArg (a :: ·) (dedupAux_cons_seen a [] l)

theorem dedupFirst_eq_self_of_nodup {l : List α} (h : l.Nodup) : dedupFirst l = l := by
  induction l with
  | nil => rfl
  | cons x xs ih =>
      rw [dedupFirst_cons]
      rcases List.nodup_cons.mp h with ⟨hx, hxs⟩
      have hf : xs.filter (fun y => y ≠ x) = xs :=
        List.filter_eq_self.mpr (fun y hy => by
          simp only [ne_eq, decide_eq_true_eq]
          exact fun hc => hx (hc ▸ hy))
      rw [hf, ih hxs]

theorem dedupFirst_perm_dedup (l : List α) : List.Perm (dedupFirst l) l.dedup := by
  rw [List.perm_ext_iff_of_nodup (dedupFirst_nodup l) l.nodup_dedup]
  intro x
  rw [mem_dedupFirst, List.mem_dedup]

theorem cnt_eq_count (v : α) (l : List α) : cnt v l = l.count v := by
  induction l with
  | nil => rfl
  | cons x xs ih =>
      rw [List.count_cons]
      by_cases h : x = v
      · simp [cnt, h, ih, Nat.add_comm]
      · simp [cnt, h, ih]

end Dedup

/-! ### Structural lemmas about the pipeline stages -/

/-- Evaluating a rebuilt row at an in-range column index. -/
theorem getD_map_range {β : Type} (f : Nat → β) (n i : Nat) (h : i < n) (d : β) :
    ((List.range n).map f).getD i d = f i := by
  rw [List.getD_eq_getElem?_getD, List.getElem?_map, List.getElem?_range h]
  rfl

/-- A rebuilt row reproduces a full-length row unchanged. -/
theorem map_range_getD_eq_self {β : Type} (r : List β) (d : β) :
    (List.range r.length).map (fun i => r.getD i d) = r := by
  apply List.ext_getElem
  · simp
  · intro i h1 h2
    have hi : i < r.length := h2
    rw [List.getElem_map, List.getElem_range]
    rw [List.getD_eq_getElem?_getD, List.getElem?_eq_getElem hi]
    rfl

theorem stringifyRows_row_length {t : Table} {r : List Cell}
    (h : r ∈ stringifyRows t) : r.length = t.cols.length := by
  rcases List.mem_map.mp h with ⟨r0, _, rfl⟩
  simp

theorem midTable_cols (t : Table) : (midTable t).cols = t.cols := rfl

theorem midTable_row_length {t : Table} {r : List Cell}
    (h : r ∈ (midTable t).rows) : r.length = t.cols.length :=
  stringifyRows_row_length (List.Sublist.mem h (dedupFirst_sublist _))

theorem fillText_cols (t : Table) : (fillText t).cols = t.cols := rfl

theorem fillNum_cols (t : Table) : (fillNum t).cols = t.cols := rfl

theorem cleanData_cols (t : Table) : (cleanData t).cols = t.cols := rfl

theorem createDaily_cols {t : Table} {d : ℚ} {t' : Table}
    (h : createDaily t d = .ok t') :
    t'.cols = t.cols ∨ t'.cols = t.cols ++ ["DailyCharges"] := by
  unfold createDaily at h
  by_cases hm : "MonthlyCharges" ∈ t.cols
  · rw [if_pos hm] at h
    by_cases ha : (colNamed t "MonthlyCharges").all (fun c => Cell.isNum c || Cell.isNull c)
    · rw [if_pos ha] at h
      have ht' : t' = setCol t "DailyCharges"
          ((colNamed t "MonthlyCharges").map (fun c => cellDiv c d)) := by
        cases h
        rfl
      subst ht'
      unfold setCol
      by_cases hd : "DailyCharges" ∈ t.cols
      · rw [if_pos hd]
        left
        rfl
      · rw [if_neg hd]
        right
        rfl
    · rw [if_neg ha] at h
      cases h
  · rw [if_neg hm] at h
    cases h
    left
    rfl

/-! ### Claim C10: duplicate removal keeps first occurrences in order -/

/-- C10: in the Cleaner, duplicate-row removal scans the (stringified) rows,
keeps the first occurrence of each group of fully-equal rows, drops the later
occurrences (head kept, later equal rows filtered away), and the survivors form
a duplicate-free sublist of the input rows in their original relative order. -/
theorem claim_c10_dedup_keeps_first_in_order (t : Table) :
    (midTable t).rows = dedupFirst (stringifyRows t) ∧
    List.Sublist (dedupFirst (stringifyRows t)) (stringifyRows t) ∧
    (dedupFirst (stringifyRows t)).Nodup ∧
    (∀ r, r ∈ dedupFirst (stringifyRows t) ↔ r ∈ stringifyRows t) ∧
    (∀ (r : List Cell) (rs : List (List Cell)),
      dedupFirst (r :: rs) = r :: dedupFirst (rs.filter (fun x => x ≠ r))) :=
  ⟨rfl, dedupFirst_sublist _, dedupFirst_nodup _,
    fun _ => mem_dedupFirst, fun r rs => dedupFirst_cons r rs⟩

/-! ### Claim C2: SchemaError iff no Churn column; aborts before rendering -/

theorem analyzeData_schemaError_iff (t : Table) :
    analyzeData t = .error .schemaError ↔ "Churn" ∉ t.cols := by
  by_cases h : "Churn" ∈ t.cols
  · simp only [analyzeData, if_pos h]
    rcases hf : findCharge t with _ | c
    · simp
      exact h
    · by_cases hn : isNumericCol (colNamed t c)
      · simp [hn]
        exact h
      · simp [hn]
        exact h
  · simp [analyzeData, if_neg h, h]

/-- C2: `analyze_data` raises its KeyError (the spec's SchemaError) exactly when
no column literally named "Churn" exists, and in that case the pipeline aborts
with an error before `generate_report`, so no report document is produced. -/
theorem claim_c2_schema_error (t raw : Table) (d : ℚ) :
    (analyzeData t = .error .schemaError ↔ "Churn" ∉ t.cols) ∧
    ("Churn" ∉ raw.cols → ∃ e, runFromRaw raw d = .error e) := by
  refine ⟨analyzeData_schemaError_iff t, fun hraw => ?_⟩
  rcases hcd : createDaily (cleanData raw) d with e | t2
  · rcases e with _
    exact ⟨.typeError, by simp [runFromRaw, hcd]⟩
  · have hcols : "Churn" ∉ t2.cols := by
      rcases createDaily_cols hcd with h2 | h2
      · rw [h2, cleanData_cols]
        exact hraw
      · rw [h2, cleanData_cols]
        intro hc
        rcases List.mem_append.mp hc with hc1 | hc1
        · exact hraw hc1
        · simp at hc1
    have ha : analyzeData t2 = .error .schemaError :=
      (analyzeData_schemaError_iff t2).mpr hcols
    exact ⟨.schemaError, by simp [runFromRaw, hcd, ha]⟩

/-- Witness for C2 at a concrete input: a one-column table without "Churn". -/
theorem claim_c2_schema_error_witness :
    ∃ e, runFromRaw ⟨["city"], [[Cell.str "x"]]⟩ 30 = .error e :=
  (claim_c2_schema_error ⟨["city"], [[Cell.str "x"]]⟩
    ⟨["city"], [[Cell.str "x"]]⟩ 30).2 (by decide)

/-! ### Claim C6: deterministic first-match charge-column detection -/

theorem find?_some_first {p : String → Bool} {l : List String} {c : String}
    (h : l.find? p = some c) :
    ∃ i, i < l.length ∧ l.getD i "" = c ∧ p c = true ∧
      ∀ j, j < i → p (l.getD j "") = false := by
  induction l with
  | nil => cases h
  | cons x xs ih =>
      by_cases hx : p x
      · rw [List.find?_cons_of_pos _ hx] at h
        cases h
        exact ⟨0, Nat.succ_pos _, rfl, hx, fun j hj => absurd hj (Nat.not_lt_zero j)⟩
      · rw [List.find?_cons_of_neg _ hx] at h
        rcases ih h with ⟨i, hi, hget, hp, hfirst⟩
        refine ⟨i + 1, Nat.succ_lt_succ hi, hget, hp, fun j hj => ?_⟩
        cases j with
        | zero => simpa using hx
        | succ j => exact hfirst j (Nat.lt_of_succ_lt_succ hj)

/-- C6: the charge-column heuristic picks the first column, in declaration
order, whose name case-insensitively contains "charge" or "cargos"; when no
column matches, `analyze_data` still succeeds with an empty avg_charges
mapping and prints the warning, and the whole run completes with a report
whose avg mapping is empty. -/
theorem claim_c6_charge_detection (t raw : Table) (d : ℚ) :
    (∀ c, findCharge t = some c →
        ∃ i, i < t.cols.length ∧ t.cols.getD i "" = c ∧ chargeMatch c = true ∧
          ∀ j, j < i → chargeMatch (t.cols.getD j "") = false) ∧
    (findCharge t = none ↔ ∀ c ∈ t.cols, chargeMatch c = false) ∧
    ((∀ c ∈ t.cols, chargeMatch c = false) → "Churn" ∈ t.cols →
      analyzeData t = .ok ({ churn_rate := vcNorm (colNamed t "Churn"),
                             avg_charges := [],
                             total_customers := t.rows.length }, true)) ∧
    ((∀ c ∈ raw.cols, chargeMatch c = false) → "Churn" ∈ raw.cols →
      ∃ rep, runFromRaw raw d = .ok rep ∧ rep.avg_charges = []) := by
  have hnone : ∀ (u : Table), (∀ c ∈ u.cols, chargeMatch c = false) → findCharge u = none :=
    fun u hu => List.find?_eq_none.mpr (fun c hc => by simp [hu c hc])
  have hanalyze : ∀ (u : Table), (∀ c ∈ u.cols, chargeMatch c = false) → "Churn" ∈ u.cols →
      analyzeData u = .ok ({ churn_rate := vcNorm (colNamed u "Churn"),
                             avg_charges := [],
                             total_customers := u.rows.length }, true) := by
    intro u hu hc
    simp [analyzeData, if_pos hc, hnone u hu]
  refine ⟨fun c hc => find?_some_first hc, ?_, hanalyze t, ?_⟩
  · constructor
    · intro hn c hc
      have hnc := List.find?_eq_none.mp hn c hc
      cases hb : chargeMatch c
      · rfl
      · exact absurd hb hnc
    · exact hnone t
  · intro hraw hchurn
    have hmc : "MonthlyCharges" ∉ (cleanData raw).cols := by
      rw [cleanData_cols]
      intro hc
      have := hraw "MonthlyCharges" hc
      rw [show chargeMatch "MonthlyCharges" = true from by decide] at this
      cases this
    have hcd : createDaily (cleanData raw) d = .ok (cleanData raw) := by
      simp [createDaily, hmc]
    have hclean_cols : (cleanData raw).cols = raw.cols := cleanData_cols raw
    have ha := hanalyze (cleanData raw) (by rw [hclean_cols]; exact hraw)
      (by rw [hclean_cols]; exact hchurn)
    have hrun : runFromRaw raw d = .ok (renderReport
        { churn_rate := vcNorm (colNamed (cleanData raw) "Churn"),
          avg_charges := [],
          total_customers := (cleanData raw).rows.length } (cleanData raw)) := by
      simp [runFromRaw, hcd, ha]
    exact ⟨_, hrun, rfl⟩

/-- Witness for C6 at a concrete input: one "Churn" column, no charge match. -/
theorem claim_c6_charge_detection_witness :
    ∃ rep, runFromRaw ⟨["Churn"], [[Cell.str "No"]]⟩ 30 = .ok rep ∧
      rep.avg_charges = [] :=
  (claim_c6_charge_detection ⟨["Churn"], [[Cell.str "No"]]⟩
    ⟨["Churn"], [[Cell.str "No"]]⟩ 30).2.2.2 (by decide) (by decide)

/-! ### Column update lemmas for `setCol` -/

theorem getD_set_self {l : List Cell} {i : Nat} (h : i < l.length) (v d : Cell) :
    (l.set i v).getD i d = v := by
  rw [List.getD_eq_getElem?_getD, List.getElem?_set_eq_of_lt v h]
  rfl

theorem getD_set_ne {l : List Cell} {i j : Nat} (h : i ≠ j) (v d : Cell) :
    (l.set i v).getD j d = l.getD j d := by
  rw [List.getD_eq_getElem?_getD, List.getElem?_set_ne h, List.getD_eq_getElem?_getD]

theorem getD_append_len {r : List Cell} (v d : Cell) :
    (r ++ [v]).getD r.length d = v := by
  rw [List.getD_eq_getElem?_getD, List.getElem?_append_right (Nat.le_refl _)]
  simp

theorem getD_append_lt {r l2 : List Cell} {j : Nat} (h : j < r.length) (d : Cell) :
    (r ++ l2).getD j d = r.getD j d := by
  rw [List.getD_eq_getElem?_getD, List.getElem?_append_left h, List.getD_eq_getElem?_getD]

theorem zip_map_set_col {rows : List (List Cell)} {vals : List Cell} {i n : Nat}
    (hwf : ∀ r ∈ rows, r.length = n) (hi : i < n) (hlen : vals.length = rows.length) :
    ((rows.zip vals).map (fun p => (p.1.set i p.2).getD i Cell.null)) = vals := by
  induction rows generalizing vals with
  | nil =>
      cases vals with
      | nil => rfl
      | cons v vs => cases hlen
  | cons r rs ih =>
      cases vals with
      | nil => cases hlen
      | cons v vs =>
          simp only [List.zip_cons_cons, List.map_cons]
          have hr : r.length = n := hwf r (List.mem_cons_self _ _)
          rw [getD_set_self (by rw [hr]; exact hi)]
          have := ih (fun r' h' => hwf r' (List.mem_cons_of_mem _ h'))
            (by simpa using hlen)
          rw [this]

theorem zip_map_set_other {rows : List (List Cell)} {vals : List Cell} {i j : Nat}
    (hij : i ≠ j) (hlen : vals.length = rows.length) :
    ((rows.zip vals).map (fun p => (p.1.set i p.2).getD j Cell.null)) =
      rows.map (fun r => r.getD j Cell.null) := by
  induction rows generalizing vals with
  | nil => rfl
  | cons r rs ih =>
      cases vals with
      | nil => cases hlen
      | cons v vs =>
          simp only [List.zip_cons_cons, List.map_cons]
          rw [getD_set_ne hij, ih (by simpa using hlen)]

theorem zip_map_append_col {rows : List (List Cell)} {vals : List Cell} {n : Nat}
    (hwf : ∀ r ∈ rows, r.length = n) (hlen : vals.length = rows.length) :
    ((rows.zip vals).map (fun p => (p.1 ++ [p.2]).getD n Cell.null)) = vals := by
  induction rows generalizing vals with
  | nil =>
      cases vals with
      | nil => rfl
      | cons v vs => cases hlen
  | cons r rs ih =>
      cases vals with
      | nil => cases hlen
      | cons v vs =>
          simp only [List.zip_cons_cons, List.map_cons]
          have hr : r.length = n := hwf r (List.mem_cons_self _ _)
          have hhead : (r ++ [v]).getD n Cell.null = v := by
            rw [← hr]
            exact getD_append_len v Cell.null
          rw [hhead, ih (fun r' h' => hwf r' (List.mem_cons_of_mem _ h')) (by simpa using hlen)]

theorem zip_map_append_other {rows : List (List Cell)} {vals : List Cell} {j n : Nat}
    (hwf : ∀ r ∈ rows, r.length = n) (hj : j < n) (hlen : vals.length = rows.length) :
    ((rows.zip vals).map (fun p => (p.1 ++ [p.2]).getD j Cell.null)) =
      rows.map (fun r => r.getD j Cell.null) := by
  induction rows generalizing vals with
  | nil => rfl
  | cons r rs ih =>
      cases vals with
      | nil => cases hlen
      | cons v vs =>
          simp only [List.zip_cons_cons, List.map_cons]
          have hr : r.length = n := hwf r (List.mem_cons_self _ _)
          rw [getD_append_lt (by rw [hr]; exact hj),
            ih (fun r' h' => hwf r' (List.mem_cons_of_mem _ h')) (by simpa using hlen)]

theorem colNamed_length (t : Table) (c : String) :
    (colNamed t c).length = t.rows.length := by
  simp [colNamed, colAt]

theorem setCol_rows_length (t : Table) (name : String) (vals : List Cell)
    (hlen : vals.length = t.rows.length) :
    (setCol t name vals).rows.length = t.rows.length := by
  unfold setCol
  by_cases hm : name ∈ t.cols
  · rw [if_pos hm]
    simp [List.length_zip, hlen]
  · rw [if_neg hm]
    simp [List.length_zip, hlen]

theorem colNamed_setCol_self (t : Table) (name : String) (vals : List Cell)
    (hwf : t.WF) (hlen : vals.length = t.rows.length) :
    colNamed (setCol t name vals) name = vals := by
  unfold setCol
  by_cases hm : name ∈ t.cols
  · rw [if_pos hm]
    show ((t.rows.zip vals).map _).map _ = vals
    rw [List.map_map]
    exact zip_map_set_col (n := t.cols.length) hwf
      (List.indexOf_lt_length.mpr hm) hlen
  · rw [if_neg hm]
    show ((t.rows.zip vals).map _).map _ = vals
    rw [List.map_map]
    have hidx : (t.cols ++ [name]).indexOf name = t.cols.length := by
      rw [List.indexOf_append_of_not_mem hm]
      simp
    simp only [colNamed, colAt] at *
    rw [hidx]
    exact zip_map_append_col hwf hlen

theorem colNamed_setCol_other (t : Table) (name c : String) (vals : List Cell)
    (hwf : t.WF) (hlen : vals.length = t.rows.length)
    (hcmem : c ∈ t.cols) (hne : c ≠ name) :
    colNamed (setCol t name vals) c = colNamed t c := by
  unfold setCol
  by_cases hm : name ∈ t.cols
  · rw [if_pos hm]
    have hneidx : t.cols.indexOf name ≠ t.cols.indexOf c := by
      intro he
      have hlt1 : t.cols.indexOf c < t.cols.length := List.indexOf_lt_length.mpr hcmem
      have hlt2 : t.cols.indexOf name < t.cols.length := List.indexOf_lt_length.mpr hm
      have h1 : t.cols.get ⟨t.cols.indexOf c, hlt1⟩ = c := List.indexOf_get hlt1
      have h2 : t.cols.get ⟨t.cols.indexOf name, hlt2⟩ = name := List.indexOf_get hlt2
      rw [show (⟨t.cols.indexOf name, hlt2⟩ : Fin t.cols.length) =
        ⟨t.cols.indexOf c, hlt1⟩ from Fin.ext he, h1] at h2
      exact hne h2
    show ((t.rows.zip vals).map _).map _ = _
    rw [List.map_map]
    exact zip_map_set_other hneidx hlen
  · rw [if_neg hm]
    show ((t.rows.zip vals).map _).map _ = _
    rw [List.map_map]
    simp only [colNamed, colAt]
    have hidx : (t.cols ++ [name]).indexOf c = t.cols.indexOf c :=
      List.indexOf_append_of_mem hcmem
    rw [hidx]
    exact zip_map_append_other hwf (List.indexOf_lt_length.mpr hcmem) hlen

/-! ### Claim C5: daily-charge identity and the no-op branch -/

theorem getD_map_cellDiv (mc : List Cell) (d : ℚ) (j : Nat) :
    (mc.map (fun c => cellDiv c d)).getD j Cell.null =
      cellDiv (mc.getD j Cell.null) d := by
  by_cases h : j < mc.length
  · rw [List.getD_eq_getElem?_getD, List.getElem?_map, List.getElem?_eq_getElem h,
      List.getD_eq_getElem?_getD, List.getElem?_eq_getElem h]
    rfl
  · have h1 : mc.length ≤ j := Nat.le_of_not_lt h
    rw [List.getD_eq_getElem?_getD, List.getElem?_eq_none (by simpa using h1),
      List.getD_eq_getElem?_getD, List.getElem?_eq_none h1]
    rfl

/-- C5: `create_daily_column` with a non-zero divisor: when a column literally
named "MonthlyCharges" exists (and holds numbers/NaNs, the case where pandas
division is defined), every row of the new "DailyCharges" column equals the
monthly value divided by `days_per_month`; when the column is absent, the
method is a no-op that raises no error. -/
theorem claim_c5_daily_charges (t : Table) (d : ℚ) (hd : d ≠ 0) (hwf : t.WF) :
    ("MonthlyCharges" ∉ t.cols → createDaily t d = .ok t) ∧
    ("MonthlyCharges" ∈ t.cols →
      ((colNamed t "MonthlyCharges").all (fun c => Cell.isNum c || Cell.isNull c)) = true →
      ∃ t', createDaily t d = .ok t' ∧
        colNamed t' "DailyCharges" =
          (colNamed t "MonthlyCharges").map (fun c => cellDiv c d) ∧
        ∀ j q, (colNamed t "MonthlyCharges").getD j Cell.null = Cell.num q →
          (colNamed t' "DailyCharges").getD j Cell.null = Cell.num (q / d)) := by
  constructor
  · intro hm
    simp [createDaily, hm]
  · intro hm hall
    refine ⟨setCol t "DailyCharges" ((colNamed t "MonthlyCharges").map (fun c => cellDiv c d)),
      ?_, ?_, ?_⟩
    · simp [createDaily, hm, hall]
    · exact colNamed_setCol_self t "DailyCharges" _ hwf
        (by rw [List.length_map, colNamed_length])
    · intro j q hq
      rw [colNamed_setCol_self t "DailyCharges" _ hwf
        (by rw [List.length_map, colNamed_length])]
      rw [getD_map_cellDiv, hq]
      rfl

/-- Witness for C5: one numeric MonthlyCharges row, divisor 2. -/
theorem claim_c5_daily_charges_witness :
    ∃ t', createDaily ⟨["MonthlyCharges"], [[Cell.num 70]]⟩ 2 = .ok t' ∧
      colNamed t' "DailyCharges" =
        (colNamed ⟨["MonthlyCharges"], [[Cell.num 70]]⟩ "MonthlyCharges").map
          (fun c => cellDiv c 2) ∧
      ∀ j q, (colNamed ⟨["MonthlyCharges"], [[Cell.num 70]]⟩ "MonthlyCharges").getD j
          Cell.null = Cell.num q →
        (colNamed t' "DailyCharges").getD j Cell.null = Cell.num (q / 2) :=
  (claim_c5_daily_charges ⟨["MonthlyCharges"], [[Cell.num 70]]⟩ 2
    (by norm_num) (by decide)).2 (by decide) (by decide)

/-! ### Claim C9: the Feature Deriver's frame effect -/

/-- C9 counterexample: a table that already has a "DailyCharges" column. The
derive step overwrites it in place (here a NaN monthly value turns the existing
99 into NaN), so "never overwrites any existing column" is false as stated. -/
theorem claim_c9_counterexample :
    createDaily ⟨["MonthlyCharges", "DailyCharges"], [[Cell.null, Cell.num 99]]⟩ 2 =
      .ok ⟨["MonthlyCharges", "DailyCharges"], [[Cell.null, Cell.null]]⟩ ∧
    colNamed ⟨["MonthlyCharges", "DailyCharges"], [[Cell.null, Cell.null]]⟩
        "DailyCharges" ≠
      colNamed ⟨["MonthlyCharges", "DailyCharges"], [[Cell.null, Cell.num 99]]⟩
        "DailyCharges" := by decide

/-- C9 amended: the derive step keeps the row count and every column other
than "DailyCharges" unchanged; the column set is unchanged or extended by
exactly "DailyCharges". A pre-existing "DailyCharges" column, however, is
overwritten in place. -/
theorem claim_c9_frame_effect (t : Table) (d : ℚ) (t' : Table)
    (hwf : t.WF) (h : createDaily t d = .ok t') :
    t'.rows.length = t.rows.length ∧
    (∀ c ∈ t.cols, c ≠ "DailyCharges" → colNamed t' c = colNamed t c) ∧
    (t'.cols = t.cols ∨ t'.cols = t.cols ++ ["DailyCharges"]) := by
  refine ⟨?_, ?_, createDaily_cols h⟩ <;>
    · unfold createDaily at h
      by_cases hm : "MonthlyCharges" ∈ t.cols
      · rw [if_pos hm] at h
        by_cases ha : (colNamed t "MonthlyCharges").all
            (fun c => Cell.isNum c || Cell.isNull c)
        · rw [if_pos ha] at h
          have ht' : t' = setCol t "DailyCharges"
              ((colNamed t "MonthlyCharges").map (fun c => cellDiv c d)) := by
            cases h
            rfl
          subst ht'
          first
          | exact setCol_rows_length t "DailyCharges" _
              (by rw [List.length_map, colNamed_length])
          | exact fun c hc hne => colNamed_setCol_other t "DailyCharges" c _ hwf
              (by rw [List.length_map, colNamed_length]) hc hne
        · rw [if_neg ha] at h
          cases h
      · rw [if_neg hm] at h
        cases h
        first
        | rfl
        | exact fun c hc hne => rfl

/-- Witness for C9 amended at a concrete input (fresh "DailyCharges" column). -/
theorem claim_c9_frame_effect_witness :
    (⟨["MonthlyCharges", "x", "DailyCharges"],
        [[Cell.null, Cell.str "a", Cell.null]]⟩ : Table).rows.length =
      (⟨["MonthlyCharges", "x"], [[Cell.null, Cell.str "a"]]⟩ : Table).rows.length ∧
    colNamed ⟨["MonthlyCharges", "x", "DailyCharges"],
        [[Cell.null, Cell.str "a", Cell.null]]⟩ "x" =
      colNamed ⟨["MonthlyCharges", "x"], [[Cell.null, Cell.str "a"]]⟩ "x" := by
  have h := claim_c9_frame_effect ⟨["MonthlyCharges", "x"], [[Cell.null, Cell.str "a"]]⟩ 2
    ⟨["MonthlyCharges", "x", "DailyCharges"], [[Cell.null, Cell.str "a", Cell.null]]⟩
    (by decide) (by decide)
  exact ⟨h.1, h.2.1 "x" (by decide) (by decide)⟩

/-! ### Claim C4: load failures -/

/-- C4 counterexample: with neither selector given, `load_data` itself raises
nothing — its try/except prints the error and returns normally with no table —
and the run then aborts in `clean_data` with an AttributeError on `None`,
not with a SourceError raised by the load stage. -/
theorem claim_c4_counterexample :
    loadData none none =
      (none, ["[ERROR] cargando datos: Debes proporcionar una URL o un file_path."]) ∧
    runAndReport none none 30 = .error .attrNone := by decide

/-- C4 amended: every load failure (no selector, failed/unparseable URL fetch,
or failed/unparseable file read) is caught and logged inside `load_data`, which
returns normally leaving no raw table; the run then aborts with the Cleaner's
AttributeError before any output is produced. -/
theorem claim_c4_load_error_aborts (u p : Option Fetched) (d : ℚ) :
    ((loadData u p).1 = none ↔
      (u = none ∧ p = none) ∨ (∃ e, u = some (.bad e)) ∨
        (u = none ∧ ∃ e, p = some (.bad e))) ∧
    ((loadData u p).1 = none → runAndReport u p d = .error .attrNone) := by
  constructor
  · rcases u with _ | uf
    · rcases p with _ | pf
      · simp [loadData]
      · rcases pf with t | e <;> simp [loadData]
    · rcases uf with t | e <;> simp [loadData]
  · intro h
    simp [runAndReport, h]

/-- Witness for C4 amended: a failed HTTP fetch aborts with the AttributeError. -/
theorem claim_c4_load_error_aborts_witness :
    runAndReport (some (Fetched.bad LoadErr.httpErr)) none 30 = .error .attrNone :=
  (claim_c4_load_error_aborts (some (Fetched.bad LoadErr.httpErr)) none 30).2 (by decide)

/-! ### Claim C1: churn_rate normalization -/

theorem cell_isNull_false {c : Cell} (h : c ≠ Cell.null) : Cell.isNull c = false := by
  cases c with
  | null => exact absurd rfl h
  | str s => rfl
  | num q => rfl
  | nested s => rfl

theorem vcNorm_no_null (col : List Cell) (hnn : ∀ c ∈ col, c ≠ Cell.null) :
    vcNorm col = (dedupFirst col).map
      (fun v => (v, (cnt v col : ℚ) / (col.length : ℚ))) := by
  unfold vcNorm
  have hfil : col.filter (fun c => ¬ Cell.isNull c) = col :=
    List.filter_eq_self.mpr (fun c hc => by simp [cell_isNull_false (hnn c hc)])
  rw [hfil]

theorem sum_vcNorm_eq_one (col : List Cell) (hnn : ∀ c ∈ col, c ≠ Cell.null)
    (hne : col ≠ []) : ((vcNorm col).map Prod.snd).sum = 1 := by
  rw [vcNorm_no_null col hnn, List.map_map]
  have hmap : (Prod.snd ∘ fun v => (v, (cnt v col : ℚ) / (col.length : ℚ))) =
      fun v => (cnt v col : ℚ) / (col.length : ℚ) := rfl
  rw [hmap]
  have hcongr : (dedupFirst col).map (fun v => (cnt v col : ℚ) / (col.length : ℚ)) =
      (dedupFirst col).map (fun v => (col.count v : ℚ) * ((col.length : ℚ))⁻¹) := by
    refine List.map_congr_left (fun v _ => ?_)
    rw [cnt_eq_count, div_eq_mul_inv]
  rw [hcongr, List.sum_map_mul_right]
  have hperm : List.Perm ((dedupFirst col).map (fun v => (col.count v : ℚ)))
      (col.dedup.map (fun v => (col.count v : ℚ))) :=
    (dedupFirst_perm_dedup col).map _
  rw [hperm.sum_eq]
  have hcast : (col.dedup.map (fun v => (col.count v : ℚ))).sum =
      ((col.dedup.map (fun v => col.count v)).sum : ℚ) := by
    rw [Nat.cast_list_sum, List.map_map]
    rfl
  rw [hcast, List.sum_map_count_dedup_eq_length]
  have hlen : (col.length : ℚ) ≠ 0 := by
    have : col.length ≠ 0 := fun h => hne (List.eq_nil_of_length_eq_zero h)
    exact_mod_cast this
  exact mul_inv_cancel₀ hlen

/-- C1 counterexample: a table whose Churn column holds one "Yes" and one
missing value. `value_counts` drops the null and normalizes by the non-null
count, so churn_rate maps "Yes" to 1, not to 1/2 = count / total row count as
the claim states (and the claimed key set / sum-to-one properties read over
all rows fail with it). -/
theorem claim_c1_counterexample :
    analyzeData ⟨["Churn"], [[Cell.str "Yes"], [Cell.null]]⟩ =
      .ok ({ churn_rate := [(Cell.str "Yes", 1)], avg_charges := [],
             total_customers := 2 }, true) ∧
    (1 : ℚ) ≠ (cnt (Cell.str "Yes")
        (colNamed ⟨["Churn"], [[Cell.str "Yes"], [Cell.null]]⟩ "Churn") : ℚ) /
      ((⟨["Churn"], [[Cell.str "Yes"], [Cell.null]]⟩ : Table).rows.length : ℚ) := by
  constructor
  · have hcol : colNamed ⟨["Churn"], [[Cell.str "Yes"], [Cell.null]]⟩ "Churn" =
        [Cell.str "Yes", Cell.null] := by decide
    have hfind : findCharge ⟨["Churn"], [[Cell.str "Yes"], [Cell.null]]⟩ = none := by decide
    have hvc : vcNorm [Cell.str "Yes", Cell.null] = [(Cell.str "Yes", 1)] := by
      simp +decide only [vcNorm, List.filter, dedupFirst, dedupAux, cnt, Cell.isNull,
        List.length, Bool.not_true, Bool.not_false, List.map]
      norm_num
    simp [analyzeData, hcol, hfind, hvc]
  · have h1 : cnt (Cell.str "Yes")
        (colNamed ⟨["Churn"], [[Cell.str "Yes"], [Cell.null]]⟩ "Churn") = 1 := by decide
    rw [h1]
    norm_num

/-- C1 amended: for every table with a "Churn" column that is non-empty and has
no missing Churn values (the shape `analyze_data` sees after cleaning),
churn_rate maps exactly the distinct Churn values to their count divided by the
total row count, and its values sum to 1. With missing values present,
`value_counts` silently drops them and normalizes by the non-null count
instead; on a zero-row table the mapping is empty and sums to 0. -/
theorem claim_c1_churn_rate (t : Table) (hc : "Churn" ∈ t.cols)
    (hne : t.rows ≠ []) (hnn : ∀ c ∈ colNamed t "Churn", c ≠ Cell.null) :
    (∀ res w, analyzeData t = .ok (res, w) →
      res.churn_rate = vcNorm (colNamed t "Churn")) ∧
    (∀ v, (∃ q, (v, q) ∈ vcNorm (colNamed t "Churn")) ↔ v ∈ colNamed t "Churn") ∧
    (∀ v q, (v, q) ∈ vcNorm (colNamed t "Churn") →
      q = (cnt v (colNamed t "Churn") : ℚ) / (t.rows.length : ℚ)) ∧
    ((vcNorm (colNamed t "Churn")).map Prod.snd).sum = 1 := by
  have hvc := vcNorm_no_null (colNamed t "Churn") hnn
  refine ⟨?_, ?_, ?_, ?_⟩
  · intro res w h
    unfold analyzeData at h
    rw [if_pos hc] at h
    rcases hfc : findCharge t with _ | c <;> rw [hfc] at h
    · cases h
      rfl
    · by_cases hn : isNumericCol (colNamed t c)
      · simp only [if_pos hn] at h
        cases h
        rfl
      · simp only [if_neg hn] at h
        cases h
  · intro v
    rw [hvc]
    constructor
    · rintro ⟨q, hq⟩
      rcases List.mem_map.mp hq with ⟨x, hx, heq⟩
      have hvx : x = v := congrArg Prod.fst heq
      exact mem_dedupFirst.mp (hvx ▸ hx)
    · intro hv
      exact ⟨_, List.mem_map.mpr ⟨v, mem_dedupFirst.mpr hv, rfl⟩⟩
  · intro v q hq
    rw [hvc] at hq
    rcases List.mem_map.mp hq with ⟨x, _, heq⟩
    have hvx : x = v := congrArg Prod.fst heq
    have hqx : (cnt x (colNamed t "Churn") : ℚ) / ((colNamed t "Churn").length : ℚ) = q :=
      congrArg Prod.snd heq
    rw [← hqx, hvx, colNamed_length]
  · exact sum_vcNorm_eq_one _ hnn (by
      intro h
      apply hne
      have := congrArg List.length h
      rw [colNamed_length] at this
      exact List.eq_nil_of_length_eq_zero this)

/-- Witness for C1 amended at the spec's worked scenario table. -/
theorem claim_c1_churn_rate_witness :
    ((vcNorm (colNamed ⟨["Churn"], [[Cell.str "Yes"], [Cell.str "No"], [Cell.str "Yes"]]⟩
      "Churn")).map Prod.snd).sum = 1 :=
  (claim_c1_churn_rate ⟨["Churn"], [[Cell.str "Yes"], [Cell.str "No"], [Cell.str "Yes"]]⟩
    (by decide) (by decide) (by decide)).2.2.2

/-! ### Null/nested invariants of the Cleaner -/

/-- No missing value anywhere in the table. -/
def noNulls (t : Table) : Prop := ∀ r ∈ t.rows, ∀ c ∈ r, c ≠ Cell.null

instance (t : Table) : Decidable (noNulls t) :=
  List.decidableBAll _ _

/-- No nested (dict) cell anywhere in the table. -/
def noNested (t : Table) : Prop := ∀ r ∈ t.rows, ∀ c ∈ r, Cell.isNested c = false

theorem getD_map_rows {g : List Cell → List Cell} {rows : List (List Cell)} {j : Nat}
    (hj : j < rows.length) : (rows.map g).getD j [] = g (rows.getD j []) := by
  rw [List.getD_eq_getElem?_getD, List.getElem?_map, List.getElem?_eq_getElem hj,
    List.getD_eq_getElem?_getD, List.getElem?_eq_getElem hj]
  rfl

theorem fillText_rows_length (t : Table) : (fillText t).rows.length = t.rows.length := by
  simp [fillText]

theorem fillNum_rows_length (t : Table) : (fillNum t).rows.length = t.rows.length := by
  simp [fillNum]

theorem getCellD_fillText (t : Table) (i j : Nat) (hi : i < t.cols.length)
    (hj : j < t.rows.length) :
    getCellD (fillText t) i j =
      (if ¬ isNumericCol (colAt t i) ∧ getCellD t i j = Cell.null
       then Cell.str "Desconocido" else getCellD t i j) := by
  show ((t.rows.map _).getD j []).getD i Cell.null = _
  rw [getD_map_rows hj, getD_map_range _ _ _ hi]
  rfl

theorem getCellD_fillNum (t : Table) (i j : Nat) (hi : i < t.cols.length)
    (hj : j < t.rows.length) :
    getCellD (fillNum t) i j =
      (if isNumericCol (colAt t i) ∧ getCellD t i j = Cell.null
       then Cell.num 0 else getCellD t i j) := by
  show ((t.rows.map _).getD j []).getD i Cell.null = _
  rw [getD_map_rows hj, getD_map_range _ _ _ hi]
  rfl

/-- The per-column view of `fillText` at an in-range index. -/
theorem colAt_fillText (t : Table) (i : Nat) (hi : i < t.cols.length) :
    colAt (fillText t) i = (colAt t i).map
      (fun c => if ¬ isNumericCol (colAt t i) ∧ c = Cell.null
                then Cell.str "Desconocido" else c) := by
  show (t.rows.map _).map _ = _
  rw [List.map_map]
  unfold colAt
  rw [List.map_map]
  refine List.map_congr_left (fun r _ => ?_)
  show (List.map _ (List.range t.cols.length)).getD i Cell.null = _
  exact getD_map_range _ _ _ hi Cell.null

theorem colAt_fillText_of_numeric {t : Table} {i : Nat} (hi : i < t.cols.length)
    (hg : isNumericCol (colAt t i) = true) :
    colAt (fillText t) i = colAt t i := by
  rw [colAt_fillText t i hi]
  have : (fun c => if ¬ isNumericCol (colAt t i) ∧ c = Cell.null
      then Cell.str "Desconocido" else c) = fun c => c := by
    funext c
    simp [hg]
  rw [this]
  exact List.map_id' (colAt t i)

theorem isNumericCol_fillText (t : Table) (i : Nat) (hi : i < t.cols.length) :
    isNumericCol (colAt (fillText t) i) = isNumericCol (colAt t i) := by
  by_cases hg : isNumericCol (colAt t i) = true
  · rw [colAt_fillText_of_numeric hi hg, hg]
  · have hg' : isNumericCol (colAt t i) = false := by
      cases h : isNumericCol (colAt t i)
      · rfl
      · exact absurd h hg
    rw [hg']
    rw [colAt_fillText t i hi]
    set F := fun c => if ¬ isNumericCol (colAt t i) ∧ c = Cell.null
      then Cell.str "Desconocido" else c with hF
    have hFnum : ∀ c, Cell.isNum (F c) = Cell.isNum c := by
      intro c
      rw [hF]
      by_cases hc : c = Cell.null
      · subst hc
        simp [hg', Cell.isNum]
      · simp [hc]
    cases h : isNumericCol ((colAt t i).map F)
    · rfl
    · exfalso
      unfold isNumericCol at h hg'
      rw [Bool.and_eq_true] at h
      rcases h with ⟨hany, hall⟩
      rw [Bool.and_eq_false_iff] at hg'
      rcases hg' with hany0 | hall0
      · rw [List.any_map] at hany
        have hcomp : (Cell.isNum ∘ F) = Cell.isNum := funext hFnum
        rw [hcomp, hany0] at hany
        cases hany
      · rw [List.all_eq_true] at hall
        rw [List.all_eq_false] at hall0
        rcases hall0 with ⟨c, hcmem, hcfail⟩
        have hcnn : c ≠ Cell.null := by
          intro hcn
          subst hcn
          simp [Cell.isNull] at hcfail
        have hFc : F c = c := by
          rw [hF]
          simp [hcnn]
        have := hall (F c) (List.mem_map.mpr ⟨c, hcmem, rfl⟩)
        rw [hFc] at this
        exact hcfail this

theorem midTable_WF (t : Table) : (midTable t).WF := by
  intro r hr
  show r.length = t.cols.length
  exact midTable_row_length hr

theorem fillText_eq_self {t : Table} (hwf : t.WF) (hnn : noNulls t) :
    fillText t = t := by
  unfold fillText
  have : t.rows.map (fun r =>
      (List.range t.cols.length).map (fun i =>
        let c := r.getD i Cell.null
        if ¬ isNumericCol (colAt t i) ∧ c = Cell.null then Cell.str "Desconocido" else c)) =
      t.rows := by
    refine List.map_congr_left (fun r hr => ?_) |>.trans (List.map_id' t.rows)
    show (List.range t.cols.length).map _ = (fun r => r) r
    rw [← hwf r hr]
    refine (List.map_congr_left (fun i hi => ?_)).trans (map_range_getD_eq_self r Cell.null)
    have hir : i < r.length := List.mem_range.mp hi
    have hcell : r.getD i Cell.null ≠ Cell.null := by
      rw [List.getD_eq_getElem?_getD, List.getElem?_eq_getElem hir]
      exact hnn r hr _ (List.getElem_mem hir)
    simp only [hcell, and_false, if_false]
  rw [this]

theorem fillNum_eq_self {t : Table} (hwf : t.WF) (hnn : noNulls t) :
    fillNum t = t := by
  unfold fillNum
  have : t.rows.map (fun r =>
      (List.range t.cols.length).map (fun i =>
        let c := r.getD i Cell.null
        if isNumericCol (colAt t i) ∧ c = Cell.null then Cell.num 0 else c)) =
      t.rows := by
    refine List.map_congr_left (fun r hr => ?_) |>.trans (List.map_id' t.rows)
    show (List.range t.cols.length).map _ = (fun r => r) r
    rw [← hwf r hr]
    refine (List.map_congr_left (fun i hi => ?_)).trans (map_range_getD_eq_self r Cell.null)
    have hir : i < r.length := List.mem_range.mp hi
    have hcell : r.getD i Cell.null ≠ Cell.null := by
      rw [List.getD_eq_getElem?_getD, List.getElem?_eq_getElem hir]
      exact hnn r hr _ (List.getElem_mem hir)
    simp only [hcell, and_false, if_false]
  rw [this]

theorem stringify_eq_self {t : Table} (hwf : t.WF) (hnd : noNested t) :
    stringifyRows t = t.rows := by
  unfold stringifyRows
  have hcol : ∀ i, (colAt t i).any Cell.isNested = false := by
    intro i
    rw [List.any_eq_false]
    intro c hc
    rcases List.mem_map.mp hc with ⟨r, hr, rfl⟩
    by_cases hir : i < r.length
    · rw [List.getD_eq_getElem?_getD, List.getElem?_eq_getElem hir]
      simp only [Option.getD_some]
      rw [hnd r hr _ (List.getElem_mem hir)]
      simp
    · rw [List.getD_eq_getElem?_getD, List.getElem?_eq_none (Nat.le_of_not_lt hir)]
      simp [Cell.isNested]
  refine List.map_congr_left (fun r hr => ?_) |>.trans (List.map_id' t.rows)
  show (List.range t.cols.length).map _ = (fun r => r) r
  rw [← hwf r hr]
  refine (List.map_congr_left (fun i hi => ?_)).trans (map_range_getD_eq_self r Cell.null)
  simp only [hcol i, Bool.false_eq_true, if_false]

theorem noNulls_midTable {t : Table} (hwf : t.WF) (hnn : noNulls t) :
    noNulls (midTable t) := by
  intro r hr c hc
  have hr' : r ∈ stringifyRows t := List.Sublist.mem hr (dedupFirst_sublist _)
  rcases List.mem_map.mp hr' with ⟨r0, hr0, rfl⟩
  rcases List.mem_map.mp hc with ⟨i, hi, rfl⟩
  have hir : i < r0.length := by
    rw [hwf r0 hr0]
    exact List.mem_range.mp hi
  have hcell : r0.getD i Cell.null ≠ Cell.null := by
    rw [List.getD_eq_getElem?_getD, List.getElem?_eq_getElem hir]
    exact hnn r0 hr0 _ (List.getElem_mem hir)
  by_cases hnest : (colAt t i).any Cell.isNested
  · simp only [hnest, if_true]
    cases hval : r0.getD i Cell.null <;> simp [cellStr]
  · simp only [hnest, if_false]
    exact hcell

theorem noNested_midTable (t : Table) : noNested (midTable t) := by
  intro r hr c hc
  have hr' : r ∈ stringifyRows t := List.Sublist.mem hr (dedupFirst_sublist _)
  rcases List.mem_map.mp hr' with ⟨r0, hr0, rfl⟩
  rcases List.mem_map.mp hc with ⟨i, hi, rfl⟩
  by_cases hnest : (colAt t i).any Cell.isNested
  · simp only [hnest, if_true]
    cases hval : r0.getD i Cell.null <;> simp [cellStr, Cell.isNested]
  · have hnest' : (colAt t i).any Cell.isNested = false := by
      cases hA : (colAt t i).any Cell.isNested
      · rfl
      · exact absurd hA hnest
    simp only [hnest', Bool.false_eq_true, if_false]
    have hmem : r0.getD i Cell.null ∈ colAt t i :=
      List.mem_map.mpr ⟨r0, hr0, rfl⟩
    have hne := List.any_eq_false.mp hnest' _ hmem
    cases hN : Cell.isNested (r0.getD i Cell.null)
    · rfl
    · exact absurd hN hne

/-- Under no-null input, the Cleaner is exactly stringify-then-dedup. -/
theorem cleanData_eq_midTable {t : Table} (hwf : t.WF) (hnn : noNulls t) :
    cleanData t = midTable t := by
  unfold cleanData
  rw [fillText_eq_self (midTable_WF t) (noNulls_midTable hwf hnn),
    fillNum_eq_self (midTable_WF t) (noNulls_midTable hwf hnn)]

/-- C7 amended: the Cleaner is idempotent on tables without missing values (in
general a second application can remove duplicate rows that null-filling
re-created). -/
theorem claim_c7_clean_idempotent (t : Table) (hwf : t.WF) (hnn : noNulls t) :
    cleanData (cleanData t) = cleanData t := by
  rw [cleanData_eq_midTable hwf hnn]
  have hwfm : (midTable t).WF := midTable_WF t
  have hnnm : noNulls (midTable t) := noNulls_midTable hwf hnn
  rw [cleanData_eq_midTable hwfm hnnm]
  have hnodup : (midTable t).rows.Nodup := dedupFirst_nodup (stringifyRows t)
  have h1 : stringifyRows (midTable t) = (midTable t).rows :=
    stringify_eq_self hwfm (noNested_midTable t)
  have h2 : dedupFirst ((midTable t).rows) = (midTable t).rows :=
    dedupFirst_eq_self_of_nodup hnodup
  show (⟨(midTable t).cols, dedupFirst (stringifyRows (midTable t))⟩ : Table) = midTable t
  rw [h1, h2]

/-- C7 counterexample: a null and an explicit "Desconocido" row are distinct at
dedup time, but null-filling makes them equal, so a second cleaning pass
removes a row that the first pass kept. -/
theorem claim_c7_counterexample :
    cleanData (cleanData ⟨["city"], [[Cell.null], [Cell.str "Desconocido"]]⟩) ≠
      cleanData ⟨["city"], [[Cell.null], [Cell.str "Desconocido"]]⟩ := by decide

/-- Witness for C7 amended at a concrete null-free table with duplicates. -/
theorem claim_c7_clean_idempotent_witness :
    cleanData (cleanData ⟨["city"], [[Cell.str "a"], [Cell.str "a"], [Cell.str "b"]]⟩) =
      cleanData ⟨["city"], [[Cell.str "a"], [Cell.str "a"], [Cell.str "b"]]⟩ :=
  claim_c7_clean_idempotent ⟨["city"], [[Cell.str "a"], [Cell.str "a"], [Cell.str "b"]]⟩
    (by decide) (by decide)

/-! ### Composite per-cell behaviour of the Cleaner's fill stage -/

theorem getCellD_cleanData (t : Table) (i j : Nat) (hi : i < t.cols.length)
    (hj : j < (midTable t).rows.length) :
    getCellD (cleanData t) i j =
      (if getCellD (midTable t) i j = Cell.null then
        (if isNumericCol (colAt (midTable t) i) then Cell.num 0
         else Cell.str "Desconocido")
       else getCellD (midTable t) i j) := by
  have hiu : i < (midTable t).cols.length := hi
  have hiv : i < (fillText (midTable t)).cols.length := hi
  have hjv : j < (fillText (midTable t)).rows.length := by
    rw [fillText_rows_length]
    exact hj
  show getCellD (fillNum (fillText (midTable t))) i j = _
  rw [getCellD_fillNum (fillText (midTable t)) i j hiv hjv,
    getCellD_fillText (midTable t) i j hiu hj,
    isNumericCol_fillText (midTable t) i hiu]
  by_cases g : isNumericCol (colAt (midTable t) i) = true <;>
    by_cases hc : getCellD (midTable t) i j = Cell.null <;>
      simp [g, hc]

theorem cleanData_WF (t : Table) : (cleanData t).WF := by
  intro r hr
  rcases List.mem_map.mp hr with ⟨r1, _, rfl⟩
  simp [cleanData, fillNum, fillText, midTable]

theorem cleanData_rows_length (t : Table) :
    (cleanData t).rows.length = (midTable t).rows.length := by
  show (fillNum (fillText (midTable t))).rows.length = _
  rw [fillNum_rows_length, fillText_rows_length]

theorem cleanData_no_null (t : Table) : noNulls (cleanData t) := by
  intro r hr c hc
  rcases List.mem_iff_getElem.mp hr with ⟨j, hj, hrj⟩
  rcases List.mem_iff_getElem.mp hc with ⟨i, hir, hci⟩
  have hlen : r.length = t.cols.length := cleanData_WF t r hr
  have hi : i < t.cols.length := by rw [← hlen]; exact hir
  have hjm : j < (midTable t).rows.length := by
    rw [← cleanData_rows_length]
    exact hj
  have houter : (cleanData t).rows.getD j [] = r := by
    rw [List.getD_eq_getElem?_getD, List.getElem?_eq_getElem hj]
    simpa using hrj
  have hcell : getCellD (cleanData t) i j = c := by
    unfold getCellD
    rw [houter, List.getD_eq_getElem?_getD, List.getElem?_eq_getElem hir]
    simpa using hci
  intro hcn
  rw [hcn] at hcell
  rw [getCellD_cleanData t i j hi hjm] at hcell
  by_cases hnull : getCellD (midTable t) i j = Cell.null
  · rw [if_pos hnull] at hcell
    by_cases g : isNumericCol (colAt (midTable t) i) = true
    · rw [if_pos g] at hcell
      cases hcell
    · rw [if_neg g] at hcell
      cases hcell
  · rw [if_neg hnull] at hcell
    exact hnull hcell

/-! ### Claim C8: the Cleaner's output guarantees -/

/-- C8 counterexample: dedup runs before null filling, so filling a null can
re-create a duplicate row; the cleaned output below has two equal rows. -/
theorem claim_c8_counterexample :
    (cleanData ⟨["plan", "owner"],
      [[Cell.str "a", Cell.null], [Cell.str "a", Cell.str "Desconocido"]]⟩).rows =
      [[Cell.str "a", Cell.str "Desconocido"], [Cell.str "a", Cell.str "Desconocido"]] ∧
    ¬ (cleanData ⟨["plan", "owner"],
      [[Cell.str "a", Cell.null], [Cell.str "a", Cell.str "Desconocido"]]⟩).rows.Nodup := by
  decide

/-- C8 amended: the Cleaner's output always keeps the column set identical and
holds no missing value in any cell; it is duplicate-free whenever the input has
no missing values (in general null filling, which runs after dedup, can map a
null row and a sentinel row to the same row). -/
theorem claim_c8_clean_guarantees (t : Table) :
    (cleanData t).cols = t.cols ∧
    noNulls (cleanData t) ∧
    (t.WF → noNulls t → (cleanData t).rows.Nodup) := by
  refine ⟨rfl, cleanData_no_null t, fun hwf hnn => ?_⟩
  rw [cleanData_eq_midTable hwf hnn]
  exact dedupFirst_nodup _

/-- Witness for C8 at a concrete duplicate-bearing null-free table. -/
theorem claim_c8_clean_guarantees_witness :
    (cleanData ⟨["plan"], [[Cell.str "a"], [Cell.str "a"]]⟩).rows.Nodup :=
  (claim_c8_clean_guarantees ⟨["plan"], [[Cell.str "a"], [Cell.str "a"]]⟩).2.2
    (by decide) (by decide)

/-! ### Claim C3: the null-fill sentinels -/

/-- C3 counterexample: the Cleaner fills text nulls with the Spanish sentinel
"Desconocido", not with "Unknown" as the claim states. -/
theorem claim_c3_counterexample :
    cleanData ⟨["Name"], [[Cell.str "a"], [Cell.null]]⟩ =
      ⟨["Name"], [[Cell.str "a"], [Cell.str "Desconocido"]]⟩ ∧
    Cell.str "Desconocido" ≠ Cell.str "Unknown" := by decide

/-- C3 amended: every missing value still present after the stringify/dedup
steps is replaced by the sentinel string "Desconocido" when its column is
object-typed (text) and by 0 when its column is numeric-typed; cells that are
not missing pass through the fill steps unchanged. (Missing values in a column
that contained nested cells were already stringified to "nan" by `astype(str)`
before the fill stage.) -/
theorem claim_c3_null_fill (t : Table) (i j : Nat) (hi : i < t.cols.length)
    (hj : j < (midTable t).rows.length) :
    (getCellD (midTable t) i j = Cell.null →
      getCellD (cleanData t) i j =
        (if isNumericCol (colAt (midTable t) i) then Cell.num 0
         else Cell.str "Desconocido")) ∧
    (getCellD (midTable t) i j ≠ Cell.null →
      getCellD (cleanData t) i j = getCellD (midTable t) i j) := by
  constructor
  · intro hnull
    rw [getCellD_cleanData t i j hi hj, if_pos hnull]
  · intro hnot
    rw [getCellD_cleanData t i j hi hj, if_neg hnot]

/-- Witness for C3 at a one-null text table. -/
theorem claim_c3_null_fill_witness :
    getCellD (cleanData ⟨["Name"], [[Cell.null]]⟩) 0 0 =
      (if isNumericCol (colAt (midTable ⟨["Name"], [[Cell.null]]⟩) 0) then Cell.num 0
       else Cell.str "Desconocido") :=
  (claim_c3_null_fill ⟨["Name"], [[Cell.null]]⟩ 0 0 (by decide) (by decide)).1 (by decide)
